import Mathlib

/-!
# Verification of the supa-edge request-dispatch core

Shallow embedding of the core of the `supa-edge` framework
(`packages/framework/src`): the onion-style middleware composer
(`compose.ts`), the URLPattern router (`router.ts`), the per-request
context's body caches and response builder (`context.ts`), the
structured HTTP error (`errors.ts`) and the orchestrator
(`app.ts`: route matching, path-prefix stripping, error translation,
HEAD post-processing).

Modelling conventions:
* A URL pathname is represented by its list of `/`-separated segments:
  the pathname `/users/42` is `["users", "42"]` and the root pathname
  `/` is `[""]` (`String.splitOn` of the string after the leading
  slash).
* A compiled `URLPattern` with a pathname made of literal segments and
  `:name` / `:name?` capture groups is the corresponding list of `Seg`
  values; `:name` matches exactly one non-empty segment, `:name?`
  optionally matches one (its group is undefined when absent), mirroring
  the `[^/]+` group URLPattern compiles a named parameter to.
* The mutable per-request state a middleware can reach (the dispatch
  cursor `index` of `compose.ts`, the growing `ctx.responseHeaders`,
  and an observation trace recording execution order) is threaded
  explicitly as a state value `St`; a computation of the source type
  `Promise<Response>` becomes `St → Except ErrVal Resp × St`, a
  rejected promise being `Except.error`.
* A middleware body is a syntactic program `MwProg`: it can log an
  event, set a response header, call its `next` continuation and
  observe the settled result, or return / throw.  This captures exactly
  the interface `compose.ts` hands a middleware: middlewares reach the
  dispatch cursor only through `next`.
-/

/-- JSON values, as produced by the framework's error serialization and
response builders (`JSON.stringify` level of structure). -/
inductive Json : Type where
  | str (s : String)
  | num (n : Nat)
  | bool (b : Bool)
  | null
  | obj (fields : List (String × Json))

/-- Thrown / rejected values that can escape a dispatch chain:
`HttpError` instances (status, message, optional details), ordinary
`Error` instances (carrying a message), and arbitrary non-`Error`
thrown values. -/
inductive ErrVal : Type where
  | http (status : Nat) (msg : String) (details : Option Json)
  | jsError (msg : String)
  | nonError

/-- `HttpError.notFound(message)` from `errors.ts`: status 404, no
details. -/
def HttpError.notFound (msg : String) : ErrVal :=
  ErrVal.http 404 msg none

/-- `HttpError.toJSON()` from `errors.ts`: `{error, status}` plus
`details` only when present. -/
def HttpError.toJSON (status : Nat) (msg : String) (details : Option Json) : Json :=
  Json.obj ([("error", Json.str msg), ("status", Json.num status)] ++
    (match details with
     | some d => [("details", d)]
     | none => []))

/-- Body of a `Response`: `null`, a JSON document, or plain text. -/
inductive Body : Type where
  | noBody
  | jsonBody (j : Json)
  | textBody (s : String)

/-- Header list standing for a fetch `Headers` object (insertion
order, `set` replaces in place). -/
abbrev HList := List (String × String)

/-- `Headers.set(n, v)`: replace every entry named `n` in place, or
append when absent. -/
def hset (n v : String) (hs : HList) : HList :=
  if hs.any (fun p => p.1 = n) then
    hs.map (fun p => if p.1 = n then (n, v) else p)
  else
    hs ++ [(n, v)]

/-- A fetch `Response`: status, headers, body. -/
structure Resp : Type where
  status : Nat
  headers : HList
  body : Body

/-- The per-request mutable state reachable from inside a dispatch
chain: the dispatch cursor (`let index = -1` in `compose.ts`), the
context's `responseHeaders`, and a trace of logged events recording
execution order. -/
structure St : Type where
  index : Int
  trace : List String
  headers : HList

/-- A suspended computation of the source type `Promise<Response>`:
state in, settled result (`Except.error` = rejected promise) and state
out. -/
abbrev M (α : Type) := St → Except ErrVal α × St

/-- Syntactic middleware body: what a middleware can do with the
`(ctx, next)` interface `compose.ts` hands it — log, mutate
`ctx.responseHeaders`, call `next()` and observe its settled result,
or return / throw.  Middlewares reach the dispatch cursor only through
`next`. -/
inductive MwProg : Type where
  | ret (r : Except ErrVal Resp)
  | emit (e : String) (k : MwProg)
  | setHeader (n v : String) (k : MwProg)
  | callNext (k : Except ErrVal Resp → MwProg)

/-- Run a middleware body with a given `next` continuation. -/
def runMw (nx : M Resp) : MwProg → M Resp
  | MwProg.ret r => fun s => (r, s)
  | MwProg.emit e k => fun s => runMw nx k { s with trace := s.trace ++ [e] }
  | MwProg.setHeader n v k => fun s =>
      runMw nx k { s with headers := hset n v s.headers }
  | MwProg.callNext k => fun s =>
      let p := nx s
      runMw nx (k p.1) p.2

/-- The error `compose.ts` rejects with when `dispatch(i)` is invoked
with `i <= index`. -/
def multipleNextErr : ErrVal :=
  ErrVal.jsError "next() called multiple times in the same middleware"

/-- `dispatch(i)` from `compose.ts`: reject when `i <= index`,
otherwise record `index := i` and run `middlewares[i]` with
`() => dispatch(i + 1)` as `next`, or the terminal continuation
`finalNext` when `i` is past the end. -/
def dispatch (mws : List MwProg) (fin : M Resp) (i : Nat) : M Resp := fun s =>
  if (i : Int) ≤ s.index then
    (Except.error multipleNextErr, s)
  else
    let s₁ : St := { s with index := (i : Int) }
    if h : i < mws.length then
      runMw (dispatch mws fin (i + 1)) mws[i] s₁
    else
      fin s₁
termination_by mws.length + 1 - i

/-- `compose(middlewares)` applied to `(ctx, finalNext)`: a fresh
cursor `index = -1`, then `dispatch(0)`. -/
def composed (mws : List MwProg) (fin : M Resp) : M Resp := fun s =>
  dispatch mws fin 0 { s with index := -1 }

/-! ## Router (`router.ts`) -/

/-- One segment of a compiled `URLPattern` pathname: a literal
segment, a named parameter `:name` (one non-empty segment), or an
optional named parameter `:name?` (zero or one segment; its group is
undefined when absent). -/
inductive Seg : Type where
  | lit (s : String)
  | param (name : String)
  | paramOpt (name : String)

/-- `pattern.exec(url).pathname.groups` on the pathname's segments:
`none` when the pattern does not match, otherwise the named groups in
pattern order, an optional group being `(name, none)` when it captured
nothing (JavaScript `undefined`). -/
def execSegs : List Seg → List String → Option (List (String × Option String))
  | [], [] => some []
  | [], _ :: _ => none
  | Seg.lit l :: ps, x :: xs =>
      if x = l then execSegs ps xs else none
  | Seg.lit _ :: _, [] => none
  | Seg.param n :: ps, x :: xs =>
      if x = "" then none else (execSegs ps xs).map (fun gs => (n, some x) :: gs)
  | Seg.param _ :: _, [] => none
  | Seg.paramOpt n :: ps, x :: xs =>
      if x = "" then
        (execSegs ps (x :: xs)).map (fun gs => (n, none) :: gs)
      else
        match execSegs ps xs with
        | some gs => some ((n, some x) :: gs)
        | none => (execSegs ps (x :: xs)).map (fun gs => (n, none) :: gs)
  | Seg.paramOpt n :: ps, [] =>
      (execSegs ps []).map (fun gs => (n, none) :: gs)

/-- The `for (const [key, value] of Object.entries(groups))` loop in
`Router.match`: keep exactly the groups whose value is defined. -/
def extractParams (gs : List (String × Option String)) : List (String × String) :=
  gs.filterMap (fun p => p.2.map (fun v => (p.1, v)))

/-- `method.toUpperCase()`: uppercase every character (ASCII, which is
all the method strings involved). -/
def strUpper (s : String) : String :=
  String.mk (s.data.map Char.toUpper)

/-- A registered route (`types.ts` / `router.ts`): uppercased method,
compiled pattern, route-level middlewares, terminal handler (a
middleware body that never calls `next`, wired in by the orchestrator
as `() => Promise.resolve(route.handler(ctx))`). -/
structure Route : Type where
  method : String
  pattern : List Seg
  middlewares : List MwProg
  handler : MwProg

/-- `Router.add(method, path, ...middlewares, handler)`: push a route
whose method is uppercased and whose pattern is the compiled
`basePath + path` (the pattern argument here is that compiled
pattern). -/
def routerAdd (routes : List Route) (method : String) (pattern : List Seg)
    (mws : List MwProg) (h : MwProg) : List Route :=
  routes ++ [{ method := strUpper method, pattern := pattern,
               middlewares := mws, handler := h }]

/-- `Router.match(method, url)`: walk the routes in registration
order; skip a route unless its method equals the uppercased request
method, or is `"ALL"`, or the request method is `HEAD` and the route's
method is `GET`; return the first route whose pattern matches, with
the defined groups as params. -/
def routerMatch (routes : List Route) (method : String) (segs : List String) :
    Option (Route × List (String × String)) :=
  let upper := strUpper method
  routes.findSome? (fun route =>
    if route.method ≠ upper ∧ route.method ≠ "ALL" ∧
        ¬(upper = "HEAD" ∧ route.method = "GET") then
      none
    else
      (execSegs route.pattern segs).map (fun gs => (route, extractParams gs)))

/-! ## Orchestrator (`app.ts`) -/

/-- Render a segment list back to a pathname string (`ctx.url.pathname`
in the not-found message). -/
def renderPath (segs : List String) : String :=
  "/" ++ String.intercalate "/" segs

/-- `resolveUrl` from `app.ts`, on pathname segments: with a truthy
configured `basePath` the URL is used as-is; otherwise a leading
`/functions/v1/{name}` prefix (third segment non-empty, per the regex
`[^/]+`) is stripped, an empty remainder becoming the root pathname
`/`. -/
def resolveSegs (basePath : String) (segs : List String) : List String :=
  if basePath ≠ "" then
    segs
  else
    match segs with
    | "functions" :: "v1" :: name :: rest =>
        if name = "" then segs
        else if rest = [] then [""] else rest
    | _ => segs

/-- The terminal continuation the orchestrator installs when no route
matched: throw `HttpError.notFound` with the request method and the
original pathname. -/
def notFoundFin (method origPath : String) : M Resp := fun s =>
  (Except.error (HttpError.notFound ("No route matched: " ++ method ++ " " ++ origPath)), s)

/-- The terminal continuation for a matched route:
`() => Promise.resolve(route.handler(ctx))`.  The handler never
receives `next`; running it with a `next` that would reject keeps the
embedding total while never being reachable for handlers that do not
call `next`. -/
def handlerFin (h : MwProg) : M Resp :=
  runMw (fun s => (Except.error ErrVal.nonError, s)) h

/-- `defaultHandle`: the default error serialization of
`SupaEdgeApp.handleError` — copy `ctx.responseHeaders`, set
`Content-Type: application/json`, then serialize an `HttpError`
verbatim with its own status, or any other value as
`{error, status: 500}` with status 500. -/
def defaultHandle (e : ErrVal) (respHeaders : HList) : Resp :=
  let hs := hset "Content-Type" "application/json" respHeaders
  match e with
  | ErrVal.http status msg details =>
      { status := status, headers := hs,
        body := Body.jsonBody (HttpError.toJSON status msg details) }
  | ErrVal.jsError msg =>
      { status := 500, headers := hs,
        body := Body.jsonBody (Json.obj [("error", Json.str msg), ("status", Json.num 500)]) }
  | ErrVal.nonError =>
      { status := 500, headers := hs,
        body := Body.jsonBody (Json.obj [("error", Json.str "Internal Server Error"),
                                         ("status", Json.num 500)]) }

/-- A custom `onError` hook `(error, ctx) → Response`; `none` as result
models the hook itself throwing. -/
abbrev ErrorHook := ErrVal → St → Option Resp

/-- `SupaEdgeApp.handleError(error, ctx)`: try the configured hook
first; if it is absent or itself throws, fall through to default
handling. -/
def handleError (onError : Option ErrorHook) (e : ErrVal) (ctx : St) : Resp :=
  match onError with
  | some hook =>
      match hook e ctx with
      | some r => r
      | none => defaultHandle e ctx.headers
  | none => defaultHandle e ctx.headers

/-- Application state: global middlewares, registered routes, the
configured `basePath` (the constructor's `options.basePath ?? ""`, so
`""` means unconfigured) and the optional `onError` hook. -/
structure App : Type where
  globalMiddlewares : List MwProg
  routes : List Route
  basePath : String
  onError : Option ErrorHook

/-- The fresh per-request state: a new `ContextImpl` has empty
`responseHeaders`; the cursor is reinitialized by `composed` anyway. -/
def initSt : St := { index := -1, trace := [], headers := [] }

/-- `SupaEdgeApp.handler` on one request, also exposing the final
context state: resolve the effective path, match, run the composed
chain (global middleware only with a not-found terminal when
unmatched; global + route middleware with the handler when matched),
translate an escaping error, and strip the body when the request
method is `HEAD`. -/
def handleRequestFull (app : App) (method : String) (pathSegs : List String) :
    Resp × St :=
  let effSegs := resolveSegs app.basePath pathSegs
  let p :=
    match routerMatch app.routes method effSegs with
    | none =>
        composed app.globalMiddlewares (notFoundFin method (renderPath pathSegs)) initSt
    | some (route, _params) =>
        composed (app.globalMiddlewares ++ route.middlewares) (handlerFin route.handler) initSt
  let response :=
    match p.1 with
    | Except.ok r => r
    | Except.error e => handleError app.onError e p.2
  if method = "HEAD" then
    ({ status := response.status, headers := response.headers, body := Body.noBody }, p.2)
  else
    (response, p.2)

/-- The response `SupaEdgeApp.handler` returns. -/
def handleRequest (app : App) (method : String) (pathSegs : List String) : Resp :=
  (handleRequestFull app method pathSegs).1

/-! ## Body caches and response builder (`context.ts`) -/

/-- The memoized body-read slots of a `ContextImpl` (`_jsonCache`,
`_textCache`), together with counters of how many underlying body
reads (`this.request.clone().json()` / `.text()`) have been
performed.  A cache slot stores the settled promise: a rejected parse
is cached too. -/
structure BodyCtx : Type where
  jsonCache : Option (Except String Json)
  textCache : Option String
  jsonReads : Nat
  textReads : Nat

/-- `ContextImpl.json()`: return the cache when populated, otherwise
perform one underlying read (whose settled outcome is `parse`), store
it, and return it. -/
def ctxJson (parse : Except String Json) (st : BodyCtx) :
    Except String Json × BodyCtx :=
  match st.jsonCache with
  | some v => (v, st)
  | none => (parse, { st with jsonCache := some parse, jsonReads := st.jsonReads + 1 })

/-- `ContextImpl.text()`: same memoization for the text read. -/
def ctxText (read : String) (st : BodyCtx) : String × BodyCtx :=
  match st.textCache with
  | some v => (v, st)
  | none => (read, { st with textCache := some read, textReads := st.textReads + 1 })

/-- `ctx.respond.json(data, status)`: copy `responseHeaders`, set
`Content-Type: application/json`, build the response.  The second
component is the context state after the call — the builder performs
no assignment to `this.responseHeaders`, so it is the input state. -/
def respondJson (ctx : St) (data : Json) (status : Nat) : Resp × St :=
  ({ status := status,
     headers := hset "Content-Type" "application/json" ctx.headers,
     body := Body.jsonBody data }, ctx)

/-- `ctx.respond.text(data, status)`: copy, set
`Content-Type: text/plain; charset=utf-8`. -/
def respondText (ctx : St) (data : String) (status : Nat) : Resp × St :=
  ({ status := status,
     headers := hset "Content-Type" "text/plain; charset=utf-8" ctx.headers,
     body := Body.textBody data }, ctx)

/-- `ctx.respond.empty()`: copy the headers, status 204, null body. -/
def respondEmpty (ctx : St) : Resp × St :=
  ({ status := 204, headers := ctx.headers, body := Body.noBody }, ctx)

/-- `ctx.respond.redirect(url, status)` (default status 302): copy,
set `Location`. -/
def respondRedirect (ctx : St) (url : String) (status : Nat) : Resp × St :=
  ({ status := status,
     headers := hset "Location" url ctx.headers,
     body := Body.noBody }, ctx)

/-! ## An observable middleware family

The ordering and not-found claims quantify over middleware behaviour;
they are settled for the family of well-behaved middlewares that log a
`before` event, optionally set response headers, call `next()` exactly
once, and on success log an `after` event before returning the inner
response — the shape of the logging / CORS middlewares the framework
ships and of its own test middlewares. -/

/-- Fold a header list into a `Headers` object with repeated `set`. -/
def applyHdrs (hs : List (String × String)) (acc : HList) : HList :=
  hs.foldl (fun a p => hset p.1 p.2 a) acc

/-- Apply every middleware description's headers in order. -/
def applyAllHdrs (ms : List (String × List (String × String))) (acc : HList) : HList :=
  ms.foldl (fun a m => applyHdrs m.2 a) acc

/-- Prefix a middleware body with `setHeader` steps for each pair. -/
def setAll : List (String × String) → MwProg → MwProg
  | [], k => k
  | (n, v) :: rest, k => MwProg.setHeader n v (setAll rest k)

/-- The observable middleware named `m.1` setting headers `m.2`: log
`before`, set the headers, await `next()`, and on success log `after`
and return the inner response (a rejection propagates, skipping the
after logic, as `await next()` does). -/
def genMw (m : String × List (String × String)) : MwProg :=
  MwProg.emit ("before:" ++ m.1) (setAll m.2 (MwProg.callNext (fun r =>
    match r with
    | Except.ok v => MwProg.emit ("after:" ++ m.1) (MwProg.ret (Except.ok v))
    | Except.error e => MwProg.ret (Except.error e))))

/-- A pure observable middleware: logs only. -/
def stdMw (name : String) : MwProg :=
  genMw (name, [])

/-- The `before` events of a run of observable middlewares, in
registration order. -/
def befs (ms : List (String × List (String × String))) : List String :=
  ms.map (fun m => "before:" ++ m.1)

/-- The `after` events: reverse registration order on success, none
when the inner result was a rejection. -/
def afts (r : Except ErrVal Resp) (ms : List (String × List (String × String))) : List String :=
  match r with
  | Except.ok _ => ms.reverse.map (fun m => "after:" ++ m.1)
  | Except.error _ => []

/-- The state the terminal continuation observes when the observable
middlewares from position `i` on have run their before-halves. -/
def genArg (ms : List (String × List (String × String))) (i : Nat) (s : St) : St :=
  { index := (ms.length : Int),
    trace := s.trace ++ befs (ms.drop i),
    headers := applyAllHdrs (ms.drop i) s.headers }

/-- The expected result of `dispatch i` over observable middlewares:
run the terminal continuation on `genArg`, then append the after
events of the unwinding frames. -/
def genRun (ms : List (String × List (String × String))) (fin : M Resp) (i : Nat) (s : St) :
    Except ErrVal Resp × St :=
  ((fin (genArg ms i s)).1,
   { (fin (genArg ms i s)).2 with
       trace := (fin (genArg ms i s)).2.trace ++ afts (fin (genArg ms i s)).1 (ms.drop i) })

/-! ## Dispatch over the observable family -/

theorem runMw_setAll (nx : M Resp) (hs : List (String × String)) (k : MwProg) (s : St) :
    runMw nx (setAll hs k) s = runMw nx k { s with headers := applyHdrs hs s.headers } := by
  induction hs generalizing s with
  | nil => rfl
  | cons p rest ih =>
      obtain ⟨n, v⟩ := p
      simp only [setAll, runMw, ih, applyHdrs, List.foldl_cons]

theorem afts_nil (r : Except ErrVal Resp) : afts r [] = [] := by
  cases r <;> rfl

theorem befs_cons (m : String × List (String × String))
    (rest : List (String × List (String × String))) :
    befs (m :: rest) = ("before:" ++ m.1) :: befs rest := rfl

theorem applyAllHdrs_cons (m : String × List (String × String))
    (rest : List (String × List (String × String))) (acc : HList) :
    applyAllHdrs (m :: rest) acc = applyAllHdrs rest (applyHdrs m.2 acc) := rfl

theorem dispatch_gen_base (ms : List (String × List (String × String))) (fin : M Resp)
    (i : Nat) (s : St) (hi : i = ms.length) (hs : s.index < (i : Int)) :
    dispatch (ms.map genMw) fin i s = genRun ms fin i s := by
  subst hi
  rw [dispatch]
  rw [if_neg (not_le.mpr hs)]
  rw [dif_neg (by simp)]
  show fin { s with index := (ms.length : Int) } = _
  have harg : genArg ms ms.length s = { s with index := (ms.length : Int) } := by
    simp [genArg, befs, applyAllHdrs, List.drop_length, applyHdrs]
  rw [genRun, harg, List.drop_length]
  simp only [afts_nil, List.append_nil]

theorem dispatch_gen (ms : List (String × List (String × String))) (fin : M Resp) :
    ∀ (k i : Nat) (s : St), ms.length - i ≤ k → i ≤ ms.length → s.index < (i : Int) →
      dispatch (ms.map genMw) fin i s = genRun ms fin i s := by
  intro k
  induction k with
  | zero =>
      intro i s hk hi hs
      exact dispatch_gen_base ms fin i s
        (le_antisymm hi (Nat.sub_eq_zero_iff_le.mp (Nat.le_zero.mp hk))) hs
  | succ k ih =>
      intro i s hk hi hs
      rcases Nat.lt_or_ge i ms.length with hlt | hge
      · rw [dispatch]
        rw [if_neg (not_le.mpr hs)]
        rw [dif_pos (by simpa using hlt)]
        rw [List.getElem_map]
        simp only [genMw, runMw, runMw_setAll]
        have hnext : dispatch (ms.map genMw) fin (i + 1)
            { index := (i : Int),
              trace := s.trace ++ ["before:" ++ ms[i].1],
              headers := applyHdrs ms[i].2 s.headers } =
            genRun ms fin (i + 1)
              { index := (i : Int),
                trace := s.trace ++ ["before:" ++ ms[i].1],
                headers := applyHdrs ms[i].2 s.headers } := by
          apply ih
          · omega
          · omega
          · show (i : Int) < ((i + 1 : Nat) : Int)
            exact_mod_cast Nat.lt_succ_self i
        have hdropcons : ms.drop i = ms[i] :: ms.drop (i + 1) :=
          List.drop_eq_getElem_cons hlt
        have harg : genArg ms (i + 1)
            { index := (i : Int),
              trace := s.trace ++ ["before:" ++ ms[i].1],
              headers := applyHdrs ms[i].2 s.headers } = genArg ms i s := by
          rw [genArg, genArg, hdropcons, befs_cons, applyAllHdrs_cons]
          simp [List.append_assoc]
        rw [hnext]
        simp only [genRun, harg]
        cases hq : (fin (genArg ms i s)).1 with
        | ok v =>
            simp only [hq, runMw, afts, hdropcons, List.reverse_cons,
              List.map_append, List.map_cons, List.map_nil, List.append_assoc,
              List.append_nil]
        | error e =>
            simp only [hq, runMw, afts, hdropcons, List.append_nil]
      · exact dispatch_gen_base ms fin i s (le_antisymm hi hge) hs

/-- The heart of the ordering claims: a composed chain of observable
middlewares runs the before-halves in registration order, hands the
terminal continuation the fully decorated state, and unwinds the
after-halves in reverse registration order on success. -/
theorem composed_gen (ms : List (String × List (String × String))) (fin : M Resp) (s : St) :
    composed (ms.map genMw) fin s = genRun ms fin 0 { s with index := -1 } := by
  show dispatch (ms.map genMw) fin 0 { s with index := -1 } = _
  exact dispatch_gen ms fin ms.length 0 { s with index := -1 } (by omega) (by omega)
    (by simp)

/-! ## Monotonicity of the dispatch cursor -/

/-- A middleware body can move the dispatch cursor only through its
`next` continuation, so the cursor never decreases across a
middleware run. -/
theorem runMw_mono (nx : M Resp) (hnx : ∀ s : St, s.index ≤ (nx s).2.index) :
    ∀ (p : MwProg) (s : St), s.index ≤ (runMw nx p s).2.index := by
  intro p
  induction p with
  | ret r => intro s; exact le_refl _
  | emit e k ih => intro s; exact ih { s with trace := s.trace ++ [e] }
  | setHeader n v k ih => intro s; exact ih { s with headers := hset n v s.headers }
  | callNext k ih =>
      intro s
      exact le_trans (hnx s) (ih (nx s).1 (nx s).2)

/-- The dispatch cursor never decreases across `dispatch`. -/
theorem dispatch_mono (mws : List MwProg) (fin : M Resp)
    (hfin : ∀ s : St, s.index ≤ (fin s).2.index) :
    ∀ (k i : Nat) (s : St), mws.length - i ≤ k →
      s.index ≤ (dispatch mws fin i s).2.index := by
  intro k
  induction k with
  | zero =>
      intro i s hk
      rcases le_or_lt (i : Int) s.index with hle | hlt
      · rw [dispatch, if_pos hle]
      · rw [dispatch, if_neg (not_le.mpr hlt)]
        rw [dif_neg (by omega : ¬ i < mws.length)]
        exact le_trans (le_of_lt hlt) (hfin { s with index := (i : Int) })
  | succ k ih =>
      intro i s hk
      rcases le_or_lt (i : Int) s.index with hle | hlt
      · rw [dispatch, if_pos hle]
      · rw [dispatch, if_neg (not_le.mpr hlt)]
        by_cases hl : i < mws.length
        · rw [dif_pos hl]
          refine le_trans (le_of_lt hlt) ?_
          exact runMw_mono (dispatch mws fin (i + 1))
            (fun s' => ih (i + 1) s' (by omega)) mws[i] { s with index := (i : Int) }
        · rw [dif_neg hl]
          exact le_trans (le_of_lt hlt) (hfin { s with index := (i : Int) })

/-- `dispatch(i)` with `i <= index` rejects with the multiple-`next`
error and leaves the state untouched. -/
theorem dispatch_guard (mws : List MwProg) (fin : M Resp) (i : Nat) (s : St)
    (h : (i : Int) ≤ s.index) :
    dispatch mws fin i s = (Except.error multipleNextErr, s) := by
  rw [dispatch, if_pos h]

/-- A `dispatch(i)` that passes the guard leaves the cursor at `i` or
beyond. -/
theorem dispatch_lower (mws : List MwProg) (fin : M Resp)
    (hfin : ∀ s : St, s.index ≤ (fin s).2.index) (i : Nat) (s : St)
    (h : s.index < (i : Int)) :
    (i : Int) ≤ (dispatch mws fin i s).2.index := by
  rw [dispatch, if_neg (not_le.mpr h)]
  by_cases hl : i < mws.length
  · rw [dif_pos hl]
    have := runMw_mono (dispatch mws fin (i + 1))
      (fun s' => dispatch_mono mws fin hfin mws.length (i + 1) s' (by omega))
      mws[i] { s with index := (i : Int) }
    simpa using this
  · rw [dif_neg hl]
    simpa using hfin { s with index := (i : Int) }

/-! ## Claim theorems: dispatcher -/

/-- A terminal handler that logs one event and returns `r`. -/
def handlerProg (r : Resp) : MwProg :=
  MwProg.emit "handler" (MwProg.ret (Except.ok r))

theorem applyAllHdrs_no_hdrs (names : List String) (acc : HList) :
    applyAllHdrs (names.map (fun n => (n, ([] : List (String × String))))) acc = acc := by
  induction names generalizing acc with
  | nil => rfl
  | cons n rest ih => simpa [applyAllHdrs_cons, applyHdrs] using ih acc

/-- C1.  Middlewares that log around their single `next()` call
execute strictly in registration order before `next()` and strictly
in reverse registration order after `next()` resolves: composing any
list of such middlewares over a terminal handler produces the trace
`before`-events in registration order, then the handler event, then
the `after`-events in reverse registration order; in particular the
chain `[A, B]` over handler `H` produces exactly
`A-before, B-before, H, B-after, A-after`. -/
theorem compose_onion_order :
    (∀ (names : List String) (r : Resp),
      composed (names.map stdMw) (handlerFin (handlerProg r)) initSt =
        (Except.ok r,
         { index := (names.length : Int),
           trace := (names.map (fun n => "before:" ++ n)) ++ ["handler"] ++
                    (names.reverse.map (fun n => "after:" ++ n)),
           headers := [] })) ∧
    composed [stdMw "A", stdMw "B"]
        (handlerFin (handlerProg { status := 200, headers := [], body := Body.noBody }))
        initSt =
      (Except.ok { status := 200, headers := [], body := Body.noBody },
       { index := 2,
         trace := ["before:A", "before:B", "handler", "after:B", "after:A"],
         headers := [] }) := by
  have hfinrun : ∀ (r : Resp) (s : St),
      handlerFin (handlerProg r) s = (Except.ok r, { s with trace := s.trace ++ ["handler"] }) :=
    fun r s => rfl
  have main : ∀ (names : List String) (r : Resp),
      composed (names.map stdMw) (handlerFin (handlerProg r)) initSt =
        (Except.ok r,
         { index := (names.length : Int),
           trace := (names.map (fun n => "before:" ++ n)) ++ ["handler"] ++
                    (names.reverse.map (fun n => "after:" ++ n)),
           headers := [] }) := by
    intro names r
    have hmap : names.map stdMw =
        (names.map (fun n => (n, ([] : List (String × String))))).map genMw := by
      simp [stdMw, List.map_map]
    rw [hmap, composed_gen]
    have harg : genArg (names.map (fun n => (n, ([] : List (String × String))))) 0
        { initSt with index := -1 } =
        { index := (names.length : Int),
          trace := names.map (fun n => "before:" ++ n),
          headers := [] } := by
      simp [genArg, initSt, befs, applyAllHdrs_no_hdrs, List.map_map]
    rw [genRun, harg]
    simp only [hfinrun, List.drop_zero]
    have hafts : afts (Except.ok r) (names.map (fun n => (n, ([] : List (String × String))))) =
        names.reverse.map (fun n => "after:" ++ n) := by
      show ((names.map (fun n => (n, ([] : List (String × String))))).reverse).map
          (fun m => "after:" ++ m.1) = _
      rw [← List.map_reverse, List.map_map]
      rfl
    rw [hafts]
  refine ⟨main, ?_⟩
  have h2 := main ["A", "B"] { status := 200, headers := [], body := Body.noBody }
  simpa using h2

/-- C2.  Whatever the chain length and frame position: once a frame's
`next()` continuation (`dispatch i`) has run from a fresh state, a
second invocation of the same continuation rejects with the
multiple-`next()` error; and in general the dispatcher rejects any
dispatch index that is not strictly greater than the highest index
already dispatched, leaving the state untouched.  The terminal
continuation is only required not to move the cursor backwards, which
holds for both terminals the orchestrator installs. -/
theorem dispatch_second_next_fails (mws : List MwProg) (fin : M Resp)
    (hfin : ∀ s : St, s.index ≤ (fin s).2.index) (i : Nat) (s : St)
    (hfresh : s.index < (i : Int)) :
    (dispatch mws fin i ((dispatch mws fin i s).2) =
      (Except.error multipleNextErr, (dispatch mws fin i s).2)) ∧
    (∀ (j : Nat) (s' : St), (j : Int) ≤ s'.index →
      dispatch mws fin j s' = (Except.error multipleNextErr, s')) := by
  constructor
  · exact dispatch_guard _ _ _ _ (dispatch_lower mws fin hfin i s hfresh)
  · intro j s' hj
    exact dispatch_guard _ _ _ _ hj

/-- A terminal continuation resolving immediately with a fixed 200
response. -/
def okFin : M Resp := fun s =>
  (Except.ok { status := 200, headers := [], body := Body.noBody }, s)

/-- Witness for C2 on the one-middleware chain `[stdMw "A"]` at frame
index 0 from the fresh state. -/
theorem dispatch_second_next_fails_witness :
    dispatch [stdMw "A"] okFin 0 ((dispatch [stdMw "A"] okFin 0 initSt).2) =
      (Except.error multipleNextErr, (dispatch [stdMw "A"] okFin 0 initSt).2) :=
  (dispatch_second_next_fails [stdMw "A"] okFin (fun _ => le_refl _) 0 initSt
    (by decide)).1

/-! ## Claim theorems: error translator -/

theorem mem_hset_of_ne (n v : String) (hs : HList) (p : String × String)
    (hp : p ∈ hs) (hne : p.1 ≠ n) : p ∈ hset n v hs := by
  unfold hset
  split
  · exact List.mem_map.mpr ⟨p, hp, by simp [hne]⟩
  · exact List.mem_append_left _ hp

/-- C3.  `handleError` produces exactly one response for every
escaping error: a configured hook is invoked with the error and the
context and its result is used when it returns; if it throws, default
handling takes over instead of the hook's failure propagating.
Default handling serializes a structured `HttpError` verbatim as
`{error, status, details?}` with that exact status code, any `Error`
as `{error: message, status: 500}` with status 500, any non-`Error`
value as `{error: "Internal Server Error", status: 500}`, and merges
the context's `responseHeaders` (everything but the overridden
`Content-Type`) into the error response. -/
theorem handleError_claims :
    (∀ (hook : ErrorHook) (e : ErrVal) (ctx : St) (r : Resp),
       hook e ctx = some r → handleError (some hook) e ctx = r) ∧
    (∀ (hook : ErrorHook) (e : ErrVal) (ctx : St),
       hook e ctx = none → handleError (some hook) e ctx = defaultHandle e ctx.headers) ∧
    (∀ (e : ErrVal) (ctx : St), handleError none e ctx = defaultHandle e ctx.headers) ∧
    (∀ (status : Nat) (msg : String) (details : Option Json) (hs : HList),
       defaultHandle (ErrVal.http status msg details) hs =
         { status := status,
           headers := hset "Content-Type" "application/json" hs,
           body := Body.jsonBody (HttpError.toJSON status msg details) }) ∧
    (∀ (msg : String) (hs : HList),
       defaultHandle (ErrVal.jsError msg) hs =
         { status := 500,
           headers := hset "Content-Type" "application/json" hs,
           body := Body.jsonBody
             (Json.obj [("error", Json.str msg), ("status", Json.num 500)]) }) ∧
    (∀ (hs : HList),
       defaultHandle ErrVal.nonError hs =
         { status := 500,
           headers := hset "Content-Type" "application/json" hs,
           body := Body.jsonBody
             (Json.obj [("error", Json.str "Internal Server Error"),
                        ("status", Json.num 500)]) }) ∧
    (∀ (e : ErrVal) (hs : HList) (p : String × String),
       p ∈ hs → p.1 ≠ "Content-Type" → p ∈ (defaultHandle e hs).headers) := by
  refine ⟨?_, ?_, ?_, ?_, ?_, ?_, ?_⟩
  · intro hook e ctx r h
    simp [handleError, h]
  · intro hook e ctx h
    simp [handleError, h]
  · intro e ctx
    rfl
  · intro status msg details hs
    rfl
  · intro msg hs
    rfl
  · intro hs
    rfl
  · intro e hs p hp hne
    cases e <;> exact mem_hset_of_ne _ _ hs p hp hne

/-- Witness for C3: a hook that returns overrides serialization, a
hook that throws falls back to default handling, and a pre-set
response header survives into the error response. -/
theorem handleError_claims_witness :
    (handleError (some (fun _ _ => some { status := 418, headers := [], body := Body.noBody }))
        (ErrVal.jsError "boom") initSt =
      { status := 418, headers := [], body := Body.noBody }) ∧
    (handleError (some (fun _ _ => none)) (ErrVal.jsError "boom") initSt =
      defaultHandle (ErrVal.jsError "boom") initSt.headers) ∧
    ("X-Req-Id", "7") ∈ (defaultHandle ErrVal.nonError [("X-Req-Id", "7")]).headers :=
  ⟨handleError_claims.1 _ (ErrVal.jsError "boom") initSt _ rfl,
   handleError_claims.2.1 _ (ErrVal.jsError "boom") initSt rfl,
   handleError_claims.2.2.2.2.2.2 ErrVal.nonError [("X-Req-Id", "7")] ("X-Req-Id", "7")
     (by simp) (by decide)⟩

/-! ## Claim theorems: context body caches and response builder -/

/-- C8.  The JSON and text body caches are populated at most once per
context: a populated cache is returned as-is; from an unpopulated
cache a single underlying read happens, is stored, and a second read
returns the identical cached value with no further state change (so
exactly one underlying read serves both). -/
theorem body_cache_claims :
    (∀ (parse : Except String Json) (st : BodyCtx),
       ctxJson parse ((ctxJson parse st).2) = ((ctxJson parse st).1, (ctxJson parse st).2)) ∧
    (∀ (parse : Except String Json) (st : BodyCtx) (v : Except String Json),
       st.jsonCache = some v → ctxJson parse st = (v, st)) ∧
    (∀ (parse : Except String Json) (st : BodyCtx),
       st.jsonCache = none →
         (ctxJson parse st).1 = parse ∧
         (ctxJson parse st).2.jsonCache = some parse ∧
         (ctxJson parse st).2.jsonReads = st.jsonReads + 1) ∧
    (∀ (read : String) (st : BodyCtx),
       ctxText read ((ctxText read st).2) = ((ctxText read st).1, (ctxText read st).2)) ∧
    (∀ (read : String) (st : BodyCtx) (v : String),
       st.textCache = some v → ctxText read st = (v, st)) ∧
    (∀ (read : String) (st : BodyCtx),
       st.textCache = none →
         (ctxText read st).1 = read ∧
         (ctxText read st).2.textCache = some read ∧
         (ctxText read st).2.textReads = st.textReads + 1) := by
  refine ⟨?_, ?_, ?_, ?_, ?_, ?_⟩
  · intro parse st
    cases h : st.jsonCache <;> simp [ctxJson, h]
  · intro parse st v h
    simp [ctxJson, h]
  · intro parse st h
    simp [ctxJson, h]
  · intro read st
    cases h : st.textCache <;> simp [ctxText, h]
  · intro read st v h
    simp [ctxText, h]
  · intro read st h
    simp [ctxText, h]

/-- A context whose caches are unpopulated and whose read counters are
zero. -/
def freshBody : BodyCtx :=
  { jsonCache := none, textCache := none, jsonReads := 0, textReads := 0 }

/-- Witness for C8 on a fresh context: the first JSON read performs
the one underlying read; reading twice returns the identical cached
value. -/
theorem body_cache_claims_witness :
    ((ctxJson (Except.ok (Json.str "v")) freshBody).1 = Except.ok (Json.str "v") ∧
     (ctxJson (Except.ok (Json.str "v")) freshBody).2.jsonCache =
       some (Except.ok (Json.str "v")) ∧
     (ctxJson (Except.ok (Json.str "v")) freshBody).2.jsonReads = freshBody.jsonReads + 1) ∧
    ctxJson (Except.ok (Json.str "v")) ((ctxJson (Except.ok (Json.str "v")) freshBody).2) =
      ((ctxJson (Except.ok (Json.str "v")) freshBody).1,
       (ctxJson (Except.ok (Json.str "v")) freshBody).2) :=
  ⟨body_cache_claims.2.2.1 (Except.ok (Json.str "v")) freshBody rfl,
   body_cache_claims.1 (Except.ok (Json.str "v")) freshBody⟩

/-- C9.  Every response-builder operation copies the context's current
`responseHeaders` and overlays its operation-specific header
(`Content-Type` for `json` and `text`, `Location` for `redirect`,
nothing for `empty`), never mutating the shared `responseHeaders` (the
context state after the call is the input state), so repeated and
interleaved builder calls within one request are idempotent and
independent. -/
theorem respond_builder_claims :
    (∀ (ctx : St) (d : Json) (status : Nat),
       respondJson ctx d status =
         ({ status := status,
            headers := hset "Content-Type" "application/json" ctx.headers,
            body := Body.jsonBody d }, ctx)) ∧
    (∀ (ctx : St) (t : String) (status : Nat),
       respondText ctx t status =
         ({ status := status,
            headers := hset "Content-Type" "text/plain; charset=utf-8" ctx.headers,
            body := Body.textBody t }, ctx)) ∧
    (∀ (ctx : St),
       respondEmpty ctx = ({ status := 204, headers := ctx.headers, body := Body.noBody }, ctx)) ∧
    (∀ (ctx : St) (url : String) (status : Nat),
       respondRedirect ctx url status =
         ({ status := status,
            headers := hset "Location" url ctx.headers,
            body := Body.noBody }, ctx)) ∧
    (∀ (ctx : St) (d : Json) (status : Nat),
       respondJson (respondJson ctx d status).2 d status = respondJson ctx d status) ∧
    (∀ (ctx : St) (d : Json) (t : String) (status status' : Nat),
       respondJson (respondText ctx t status').2 d status = respondJson ctx d status ∧
       respondRedirect (respondEmpty ctx).2 t status = respondRedirect ctx t status) := by
  exact ⟨fun _ _ _ => rfl, fun _ _ _ => rfl, fun _ => rfl, fun _ _ _ => rfl,
    fun _ _ _ => rfl, fun _ _ _ _ _ => ⟨rfl, rfl⟩⟩

/-! ## Claim theorems: router -/

theorem routerMatch_nil (method : String) (segs : List String) :
    routerMatch [] method segs = none := rfl

/-- The `continue` arm of the match loop: a non-candidate route is
skipped. -/
theorem routerMatch_cons_skip (route : Route) (rest : List Route) (method : String)
    (segs : List String)
    (h : route.method ≠ strUpper method ∧ route.method ≠ "ALL" ∧
      ¬(strUpper method = "HEAD" ∧ route.method = "GET")) :
    routerMatch (route :: rest) method segs = routerMatch rest method segs := by
  simp only [routerMatch, List.findSome?]
  rw [if_pos h]

/-- A candidate route whose pattern matches ends the loop. -/
theorem routerMatch_cons_hit (route : Route) (rest : List Route) (method : String)
    (segs : List String) (gs : List (String × Option String))
    (h : ¬(route.method ≠ strUpper method ∧ route.method ≠ "ALL" ∧
      ¬(strUpper method = "HEAD" ∧ route.method = "GET")))
    (hgs : execSegs route.pattern segs = some gs) :
    routerMatch (route :: rest) method segs = some (route, extractParams gs) := by
  simp only [routerMatch, List.findSome?]
  rw [if_neg h, hgs]
  rfl

/-- A candidate route whose pattern does not match is passed over. -/
theorem routerMatch_cons_miss (route : Route) (rest : List Route) (method : String)
    (segs : List String)
    (h : ¬(route.method ≠ strUpper method ∧ route.method ≠ "ALL" ∧
      ¬(strUpper method = "HEAD" ∧ route.method = "GET")))
    (hgs : execSegs route.pattern segs = none) :
    routerMatch (route :: rest) method segs = routerMatch rest method segs := by
  simp only [routerMatch, List.findSome?]
  rw [if_neg h, hgs]
  rfl

theorem mem_of_mem_extractParams (gs : List (String × Option String))
    (kv : String × String) (h : kv ∈ extractParams gs) : (kv.1, some kv.2) ∈ gs := by
  unfold extractParams at h
  obtain ⟨p, hp, hm⟩ := List.mem_filterMap.mp h
  obtain ⟨a, b⟩ := p
  cases b with
  | none => simp at hm
  | some v =>
      simp only [Option.map_some'] at hm
      obtain rfl := Option.some.inj hm
      simpa using hp

/-- Any successful match returns exactly the defined captured groups
of the matched route's pattern. -/
theorem routerMatch_sound (method : String) (segs : List String) :
    ∀ (routes : List Route) (r : Route) (ps : List (String × String)),
      routerMatch routes method segs = some (r, ps) →
      ∃ gs, execSegs r.pattern segs = some gs ∧ ps = extractParams gs := by
  intro routes
  induction routes with
  | nil =>
      intro r ps h
      rw [routerMatch_nil] at h
      cases h
  | cons route rest ih =>
      intro r ps h
      by_cases hc : route.method ≠ strUpper method ∧ route.method ≠ "ALL" ∧
          ¬(strUpper method = "HEAD" ∧ route.method = "GET")
      · rw [routerMatch_cons_skip route rest method segs hc] at h
        exact ih r ps h
      · cases hgs : execSegs route.pattern segs with
        | none =>
            rw [routerMatch_cons_miss route rest method segs hc hgs] at h
            exact ih r ps h
        | some gs =>
            rw [routerMatch_cons_hit route rest method segs gs hc hgs] at h
            obtain ⟨h1, h2⟩ := Prod.mk.injEq _ _ _ _ |>.mp (Option.some.inj h)
            exact ⟨gs, h1 ▸ hgs, h2.symm⟩

/-- The demonstration route `GET /users/:id`. -/
def usersRoute : Route :=
  { method := "GET",
    pattern := [Seg.lit "users", Seg.param "id"],
    middlewares := [],
    handler := MwProg.ret (Except.ok { status := 200, headers := [], body := Body.noBody }) }

/-- C7.  A successful `Router.match` returns as params exactly the
groups of the matched pattern that captured a value — every params
entry comes from a defined captured group, and groups with no
captured value are omitted (never inserted as empty or null); the
pattern `/users/:id` matched against `/users/42` yields
`{id: "42"}`, and against `/users` yields no match. -/
theorem router_params_claims :
    (∀ (routes : List Route) (method : String) (segs : List String)
       (r : Route) (ps : List (String × String)),
       routerMatch routes method segs = some (r, ps) →
       ∃ gs, execSegs r.pattern segs = some gs ∧ ps = extractParams gs ∧
         ∀ kv ∈ ps, (kv.1, some kv.2) ∈ gs) ∧
    routerMatch [usersRoute] "GET" ["users", "42"] = some (usersRoute, [("id", "42")]) ∧
    routerMatch [usersRoute] "GET" ["users"] = none := by
  refine ⟨?_, rfl, rfl⟩
  intro routes method segs r ps h
  obtain ⟨gs, hgs, hps⟩ := routerMatch_sound method segs routes r ps h
  exact ⟨gs, hgs, hps, fun kv hkv => mem_of_mem_extractParams gs kv (hps ▸ hkv)⟩

/-- Witness for C7: the general soundness statement applied to the
concrete match of `/users/42` against `GET /users/:id`. -/
theorem router_params_claims_witness :
    ∃ gs, execSegs usersRoute.pattern ["users", "42"] = some gs ∧
      [("id", "42")] = extractParams gs ∧
      ∀ kv ∈ [("id", "42")], (kv.1, some kv.2) ∈ gs :=
  router_params_claims.1 [usersRoute] "GET" ["users", "42"] usersRoute [("id", "42")] rfl

/-- A demonstration route registered with method `ALL`. -/
def allDemoRoute : Route :=
  { method := "ALL",
    pattern := [Seg.lit "x"],
    middlewares := [],
    handler := MwProg.ret (Except.ok { status := 200, headers := [], body := Body.noBody }) }

/-- C10.  Registration uppercases the method (so `"all"` in any letter
case registers as `ALL`), and `Router.match` treats an `ALL` route as
a candidate for every request method — HEAD and non-GET methods
included: whenever its pattern matches the URL, a leading `ALL` route
matches the request outright. -/
theorem all_method_wildcard :
    (∀ (routes : List Route) (method : String) (pattern : List Seg)
       (mws : List MwProg) (hd : MwProg),
       routerAdd routes method pattern mws hd =
         routes ++ [{ method := strUpper method, pattern := pattern,
                      middlewares := mws, handler := hd }]) ∧
    strUpper "all" = "ALL" ∧ strUpper "aLl" = "ALL" ∧
    (∀ (rest : List Route) (method : String) (pattern : List Seg)
       (mws : List MwProg) (hd : MwProg) (segs : List String)
       (gs : List (String × Option String)),
       execSegs pattern segs = some gs →
       routerMatch ({ method := "ALL", pattern := pattern, middlewares := mws,
                      handler := hd } :: rest) method segs =
         some ({ method := "ALL", pattern := pattern, middlewares := mws,
                 handler := hd }, extractParams gs)) ∧
    routerMatch [allDemoRoute] "HEAD" ["x"] = some (allDemoRoute, []) ∧
    routerMatch [allDemoRoute] "POST" ["x"] = some (allDemoRoute, []) ∧
    routerMatch [allDemoRoute] "delete" ["x"] = some (allDemoRoute, []) := by
  refine ⟨fun _ _ _ _ _ => rfl, rfl, rfl, ?_, rfl, rfl, rfl⟩
  intro rest method pattern mws hd segs gs hgs
  exact routerMatch_cons_hit _ rest method segs gs (by simp) hgs

/-- Witness for C10: the wildcard statement applied to a `PUT` request
against the `ALL` demonstration route. -/
theorem all_method_wildcard_witness :
    routerMatch [allDemoRoute] "PUT" ["x"] = some (allDemoRoute, []) :=
  all_method_wildcard.2.2.2.1 [] "PUT" [Seg.lit "x"] [] allDemoRoute.handler ["x"] [] rfl

/-- HEAD requests reuse GET routes: as long as no route is registered
with method `HEAD` itself, matching with method `HEAD` is literally
matching with method `GET`. -/
theorem routerMatch_head_get (segs : List String) :
    ∀ (routes : List Route), (∀ r ∈ routes, r.method ≠ "HEAD") →
      routerMatch routes "HEAD" segs = routerMatch routes "GET" segs := by
  intro routes
  induction routes with
  | nil => intro _; rfl
  | cons route rest ih =>
      intro hm
      have hmr : route.method ≠ "HEAD" := hm route (List.mem_cons_self route rest)
      have hrest : ∀ r ∈ rest, r.method ≠ "HEAD" :=
        fun r hr => hm r (List.mem_cons_of_mem _ hr)
      by_cases hskip : route.method ≠ "ALL" ∧ route.method ≠ "GET"
      · rw [routerMatch_cons_skip route rest "HEAD" segs
            ⟨hmr, hskip.1, fun hx => hskip.2 hx.2⟩,
          routerMatch_cons_skip route rest "GET" segs
            ⟨hskip.2, hskip.1, fun hx => absurd hx.1 (by decide)⟩]
        exact ih hrest
      · have hH : ¬(route.method ≠ strUpper "HEAD" ∧ route.method ≠ "ALL" ∧
            ¬(strUpper "HEAD" = "HEAD" ∧ route.method = "GET")) := by
          intro hx
          exact hskip ⟨hx.2.1, fun hg => hx.2.2 ⟨rfl, hg⟩⟩
        have hG : ¬(route.method ≠ strUpper "GET" ∧ route.method ≠ "ALL" ∧
            ¬(strUpper "GET" = "HEAD" ∧ route.method = "GET")) := by
          intro hx
          exact hskip ⟨hx.2.1, hx.1⟩
        cases hgs : execSegs route.pattern segs with
        | none =>
            rw [routerMatch_cons_miss route rest "HEAD" segs hH hgs,
              routerMatch_cons_miss route rest "GET" segs hG hgs]
            exact ih hrest
        | some gs =>
            rw [routerMatch_cons_hit route rest "HEAD" segs gs hH hgs,
              routerMatch_cons_hit route rest "GET" segs gs hG hgs]

/-- A HEAD request never matches among routes registered only for
POST. -/
theorem routerMatch_head_post_only (segs : List String) :
    ∀ (routes : List Route), (∀ r ∈ routes, r.method = "POST") →
      routerMatch routes "HEAD" segs = none := by
  intro routes
  induction routes with
  | nil => intro _; rfl
  | cons route rest ih =>
      intro hm
      have hmr := hm route (List.mem_cons_self route rest)
      have hcond : route.method ≠ strUpper "HEAD" ∧ route.method ≠ "ALL" ∧
          ¬(strUpper "HEAD" = "HEAD" ∧ route.method = "GET") := by
        rw [hmr]
        exact ⟨by decide, by decide, by decide⟩
      rw [routerMatch_cons_skip route rest "HEAD" segs hcond]
      exact ih (fun r hr => hm r (List.mem_cons_of_mem _ hr))

/-- A HEAD request that hits a route produces the response the same
request with method GET would have produced, with the body stripped
and status and headers kept. -/
theorem handleRequest_head_strips (app : App) (segs : List String)
    (hnh : ∀ r ∈ app.routes, r.method ≠ "HEAD")
    (hm : (routerMatch app.routes "GET" (resolveSegs app.basePath segs)).isSome) :
    handleRequest app "HEAD" segs =
      { status := (handleRequest app "GET" segs).status,
        headers := (handleRequest app "GET" segs).headers,
        body := Body.noBody } := by
  obtain ⟨x, hx⟩ := Option.isSome_iff_exists.mp hm
  obtain ⟨route, params⟩ := x
  have heq := routerMatch_head_get (resolveSegs app.basePath segs) app.routes hnh
  have hifH : ∀ (a b : Resp × St), (if ("HEAD" : String) = "HEAD" then a else b) = a :=
    fun a b => if_pos rfl
  have hifG : ∀ (a b : Resp × St), (if ("GET" : String) = "HEAD" then a else b) = b :=
    fun a b => if_neg (by decide)
  simp only [handleRequest, handleRequestFull, heq, hx, hifH, hifG, if_true, if_false]

/-- Counterexample to C4 as stated: `Router.add` accepts a route
registered with method `HEAD` itself; against such a route,
`match("HEAD", url)` succeeds where `match("GET", url)` fails, so
`match("HEAD", ...)` does not fail wherever no GET route matches. -/
def headOnlyRoute : Route :=
  { method := "HEAD",
    pattern := [Seg.lit "h"],
    middlewares := [],
    handler := MwProg.ret (Except.ok { status := 200, headers := [], body := Body.noBody }) }

/-- The concrete counterexample for C4: a router holding one
HEAD-registered route matches a HEAD request although no GET route
matches. -/
theorem head_claim_counterexample :
    routerMatch [headOnlyRoute] "GET" ["h"] = none ∧
    routerMatch [headOnlyRoute] "HEAD" ["h"] = some (headOnlyRoute, []) :=
  ⟨rfl, rfl⟩

/-- C4 (amended: provided no route is registered with method `HEAD`
itself).  `match("HEAD", url)` then coincides exactly with
`match("GET", url)` — succeeding and failing in the same cases — and
never succeeds against routes registered only for POST; end to end, a
HEAD request that matches yields the status and headers of the GET
response with an empty body. -/
theorem head_reuses_get_claims :
    (∀ (routes : List Route) (segs : List String),
       (∀ r ∈ routes, r.method ≠ "HEAD") →
       routerMatch routes "HEAD" segs = routerMatch routes "GET" segs) ∧
    (∀ (routes : List Route) (segs : List String),
       (∀ r ∈ routes, r.method = "POST") →
       routerMatch routes "HEAD" segs = none) ∧
    (∀ (app : App) (segs : List String),
       (∀ r ∈ app.routes, r.method ≠ "HEAD") →
       (routerMatch app.routes "GET" (resolveSegs app.basePath segs)).isSome →
       handleRequest app "HEAD" segs =
         { status := (handleRequest app "GET" segs).status,
           headers := (handleRequest app "GET" segs).headers,
           body := Body.noBody }) :=
  ⟨fun routes segs h => routerMatch_head_get segs routes h,
   fun routes segs h => routerMatch_head_post_only segs routes h,
   fun app segs h1 h2 => handleRequest_head_strips app segs h1 h2⟩

/-- A route registered only for POST. -/
def postOnlyRoute : Route :=
  { method := "POST",
    pattern := [Seg.lit "p"],
    middlewares := [],
    handler := MwProg.ret (Except.ok { status := 200, headers := [], body := Body.noBody }) }

/-- An application holding only the `GET /users/:id` route. -/
def usersApp : App :=
  { globalMiddlewares := [], routes := [usersRoute], basePath := "", onError := none }

/-- Witness for the amended C4 at concrete routers: a GET-only router,
a POST-only router, and the end-to-end HEAD request. -/
theorem head_reuses_get_claims_witness :
    routerMatch [usersRoute] "HEAD" ["users", "7"] =
      routerMatch [usersRoute] "GET" ["users", "7"] ∧
    routerMatch [postOnlyRoute] "HEAD" ["p"] = none ∧
    handleRequest usersApp "HEAD" ["users", "7"] =
      { status := (handleRequest usersApp "GET" ["users", "7"]).status,
        headers := (handleRequest usersApp "GET" ["users", "7"]).headers,
        body := Body.noBody } :=
  ⟨head_reuses_get_claims.1 [usersRoute] ["users", "7"]
     (by intro r hr; rw [List.mem_singleton] at hr; subst hr; decide),
   head_reuses_get_claims.2.1 [postOnlyRoute] ["p"]
     (by intro r hr; rw [List.mem_singleton] at hr; subst hr; rfl),
   head_reuses_get_claims.2.2 usersApp ["users", "7"]
     (by intro r hr; simp only [usersApp] at hr; rw [List.mem_singleton] at hr
         subst hr; decide)
     rfl⟩

/-! ## Claim theorems: orchestrator -/

/-- On a rejected inner result, no after events are appended. -/
theorem afts_error (e : ErrVal) (ms : List (String × List (String × String))) :
    afts (Except.error e) ms = [] := rfl

/-- Running the observable global chain over the synthetic not-found
terminal: every middleware runs its before half in order and applies
its headers; the terminal raises the structured 404 carrying the
method and the original path; the unwind appends no after events. -/
theorem composed_gen_notfound (ms : List (String × List (String × String)))
    (method origPath : String) :
    composed (ms.map genMw) (notFoundFin method origPath) initSt =
      (Except.error
         (HttpError.notFound ("No route matched: " ++ method ++ " " ++ origPath)),
       { index := (ms.length : Int), trace := befs ms, headers := applyAllHdrs ms [] }) := by
  rw [composed_gen]
  simp [genRun, notFoundFin, genArg, afts, initSt]

/-- C5.  A request matching no route still builds and runs the chain
of all global middleware — each runs, in order, and the headers it
sets reach the final state — over a terminal continuation raising the
structured not-found error whose message carries the original request
method and original path; with default error handling the response is
exactly that error serialized over the headers the global middlewares
set. -/
theorem unmatched_runs_globals (ms : List (String × List (String × String)))
    (routes : List Route) (basePath method : String) (segs : List String)
    (hu : routerMatch routes method (resolveSegs basePath segs) = none)
    (hmeth : method ≠ "HEAD") :
    (handleRequestFull
        { globalMiddlewares := ms.map genMw, routes := routes,
          basePath := basePath, onError := none } method segs).2 =
      { index := (ms.length : Int), trace := befs ms, headers := applyAllHdrs ms [] } ∧
    handleRequest
        { globalMiddlewares := ms.map genMw, routes := routes,
          basePath := basePath, onError := none } method segs =
      defaultHandle
        (HttpError.notFound ("No route matched: " ++ method ++ " " ++ renderPath segs))
        (applyAllHdrs ms []) := by
  have hrun := composed_gen_notfound ms method (renderPath segs)
  constructor
  · simp only [handleRequestFull, hu, hrun, if_neg hmeth]
  · simp only [handleRequest, handleRequestFull, hu, hrun, if_neg hmeth, handleError]

/-- A CORS-style header-setting global middleware on an application
with no routes. -/
def corsApp : App :=
  { globalMiddlewares := [genMw ("cors", [("Access-Control-Allow-Origin", "*")])],
    routes := [], basePath := "", onError := none }

/-- Witness for C5: the header set by the global middleware is in the
final context state and the response is the serialized 404 carrying
`GET /todos`. -/
theorem unmatched_runs_globals_witness :
    (handleRequestFull corsApp "GET" ["todos"]).2 =
      { index := 1, trace := ["before:cors"],
        headers := [("Access-Control-Allow-Origin", "*")] } ∧
    handleRequest corsApp "GET" ["todos"] =
      defaultHandle (HttpError.notFound "No route matched: GET /todos")
        [("Access-Control-Allow-Origin", "*")] :=
  unmatched_runs_globals [("cors", [("Access-Control-Allow-Origin", "*")])]
    [] "" "GET" ["todos"] rfl (by decide)

/-- C6.  With no explicit `basePath` configured, a request path
beginning with the two-segment function-invocation prefix
`/functions/v1/{name}` resolves, for routing purposes, to the path
with that prefix removed (the empty remainder becoming `/`); with an
explicit `basePath` configured the URL is used as-is; in particular
`/functions/v1/my-fn/todos` routes exactly as `/todos` against every
router. -/
theorem basepath_strip_claims :
    (∀ (name : String) (rest : List String), name ≠ "" →
       resolveSegs "" ("functions" :: "v1" :: name :: rest) =
         (if rest = [] then [""] else rest)) ∧
    (∀ (bp : String) (segs : List String), bp ≠ "" → resolveSegs bp segs = segs) ∧
    (∀ (routes : List Route) (method : String),
       routerMatch routes method (resolveSegs "" ["functions", "v1", "my-fn", "todos"]) =
         routerMatch routes method (resolveSegs "" ["todos"])) := by
  refine ⟨?_, ?_, fun _ _ => rfl⟩
  · intro name rest h
    show (if name = "" then ("functions" :: "v1" :: name :: rest)
          else if rest = [] then [""] else rest) = (if rest = [] then [""] else rest)
    rw [if_neg h]
  · intro bp segs h
    show (if bp ≠ "" then segs else _) = segs
    rw [if_pos h]

/-- Witness for C6 at the concrete invocation paths. -/
theorem basepath_strip_claims_witness :
    resolveSegs "" ["functions", "v1", "my-fn", "todos"] =
      (if (["todos"] : List String) = [] then [""] else ["todos"]) ∧
    resolveSegs "/api" ["todos"] = ["todos"] :=
  ⟨basepath_strip_claims.1 "my-fn" ["todos"] (by decide),
   basepath_strip_claims.2.1 "/api" ["todos"] (by decide)⟩
